import Mathlib

/-!
# Shallow embedding of `visplot.py` (yhql/visplot)

This file embeds the interactive-plot glue code of `src/visplot.py` and
verifies the specified properties of its selection / hit-testing /
label-stacking / drag logic.

Conventions of the embedding:
* `numpy` float arithmetic is modelled exactly over `ℚ`.
* The strict comparison `t < rmin` between Euclidean norms in
  `find_closest_line` is modelled by the equivalent strict comparison of
  squared norms (both sides are nonnegative), so the initial threshold
  `rmin = 100` becomes `100 ^ 2`.
* Python's `round` (ties to even) and slice normalization (negative
  indices count from the end, bounds are clamped) are modelled faithfully.
* The mutable `plot` object is a `PlotState` record; each event handler
  becomes a state-transforming function.
-/

namespace Visplot

/-- Python 3 `round` for a rational: nearest integer, ties to even
(`rx = int(round(x))` in `find_closest_line`). -/
def pyRound (q : ℚ) : ℤ :=
  let f := q.floor
  let r := q - (f : ℚ)
  if r < 1/2 then f
  else if 1/2 < r then f + 1
  else if f % 2 = 0 then f else f + 1

/-- Normalization of one Python slice bound against a sequence of length
`S`: a negative bound counts from the end, results are clamped to
`[0, S]`. -/
def pyBound (a : ℤ) (S : ℕ) : ℕ :=
  if a < 0 then (max ((S : ℤ) + a) 0).toNat else min a.toNat S

/-- Python slicing `l[a:b]` (as numpy performs it on the second axis of
`self.line.pos` in `find_closest_line`). -/
def pySlice (l : List α) (a b : ℤ) : List α :=
  (l.take (pyBound b l.length)).drop (pyBound a l.length)

/-- Squared Euclidean distance of a point `p` of `line.pos` from the click
`f = np.array([x, y])` (`np.linalg.norm(p - f)`, squared). -/
def dist2 (x y : ℚ) (p : ℚ × ℚ) : ℚ := (p.1 - x) ^ 2 + (p.2 - y) ^ 2

/-- `tab = self.line.pos[:, rx-radius:rx+radius]` with `radius = 10`:
the sliced window of every curve around the rounded click column. -/
def tabOf (pos_ : List (List (ℚ × ℚ))) (x : ℚ) : List (List (ℚ × ℚ)) :=
  let rx := pyRound x
  pos_.map fun row => pySlice row (rx - 10) (rx + 10)

/-- `find_closest_line(self, x, y)` of `visplot.py`: scans the sliced
window `tab`, tracking `rmin` (initially the threshold 100, here squared)
and `imin` (initially 0), updating on strictly smaller distance, and
returns `imin`. -/
def find_closest_line (pos_ : List (List (ℚ × ℚ))) (x y : ℚ) : ℕ :=
  let tab := tabOf pos_ x
  (tab.enum.foldl
    (fun acc is => is.2.foldl
      (fun acc2 p => if dist2 x y p < acc2.1 then (dist2 x y p, is.1) else acc2)
      acc)
    (((100 : ℚ) ^ 2, 0) : ℚ × ℕ)).2

/-- The scanned points of `find_closest_line`, flattened in scan order:
each element is (curve index, squared distance from the click). -/
def scanPts (pos_ : List (List (ℚ × ℚ))) (x y : ℚ) : List (ℕ × ℚ) :=
  ((tabOf pos_ x).enum.map fun is => is.2.map fun p => (is.1, dist2 x y p)).flatten

/-- The selection loop of `find_closest_line` over a flat list of
(curve index, squared distance) pairs. -/
def selLoop (l : List (ℕ × ℚ)) (acc : ℚ × ℕ) : ℚ × ℕ :=
  l.foldl (fun a q => if q.2 < a.1 then (q.2, q.1) else a) acc

/-- The scan window as claimed by the spec: all points of a curve whose
column index lies within the inclusive ±10-column window around `rx`. -/
def windowScan (row : List (ℚ × ℚ)) (rx : ℤ) : List (ℚ × ℚ) :=
  ((List.range row.length).filter fun j : ℕ => ((j : ℤ) - rx).natAbs ≤ 10).map
    fun j => row.getD j (0, 0)

/-- `np.roll(l, d)`: cyclic rotation of a vector, `(np_roll l d)[i] =
l[(i - d) mod n]` (used on a curve's Y-values in `on_mouse_move`). -/
def np_roll (l : List ℚ) (d : ℤ) : List ℚ :=
  (List.range l.length).map fun i : ℕ =>
    l.getD ((((i : ℤ) - d) % (l.length : ℤ)).toNat) 0

/-- The constructor input `icurves`: a single 1-D curve or a 2-D
rows-by-columns array of curves. -/
inductive CurvesInput
  | one : List ℚ → CurvesInput
  | many : List (List ℚ) → CurvesInput

/-- `np.array(icurves).shape[0]`, computed in `__init__` before the 1-D
input is reshaped to `[icurves]`: the sample count for a 1-D curve, the
row count for a 2-D input. -/
def shape0 : CurvesInput → ℕ
  | .one c => c.length
  | .many cs => cs.length

/-- The number of curves actually plotted: a 1-D input is one curve. -/
def numCurves : CurvesInput → ℕ
  | .one _ => 1
  | .many cs => cs.length

/-- The label-count contract of `__init__`: with `labels` provided,
construction passes the assertion iff `len(labels) == curves.shape[0]`
(`assert len(labels) == self.shape_[0]`, checked before the reshape). -/
def labelsCheckOk (ic : CurvesInput) : Option (List String) → Bool
  | none => true
  | some ls => ls.length == shape0 ic

/-- One on-screen `scene.Text` label: its text, color and position. -/
structure TextLabel where
  text : String
  color : ℚ × ℚ × ℚ
  pos : ℕ × ℕ
  deriving Repr, DecidableEq

/-- The mutable state of a `plot` object: `self.shape_ = (N, S)`, the
`line.pos` point array, the flat per-point color buffer, the per-curve
backup colors, the current selection, the stacked labels, the cyclic
highlight palette with its cursor, the modifier flags and the recorded
mouse-press position. -/
structure PlotState where
  N : ℕ
  S : ℕ
  labels : List String
  pos_ : List (List (ℚ × ℚ))
  colors : List (ℚ × ℚ × ℚ)
  backup_colors : List (ℚ × ℚ × ℚ)
  selected_lines : List ℕ
  hl_labels : List (ℕ × TextLabel)
  palette : List (ℚ × ℚ × ℚ)
  palette_cursor : ℕ
  ctrl_pressed : Bool
  shift_pressed : Bool
  init_x : ℚ
  init_y : ℚ
  deriving Repr, DecidableEq

/-- `next(self.hl_colorset)` on the `itertools.cycle` over the palette:
returns the color at the cursor (modulo the palette length) and advances
the cursor. -/
def next_color (st : PlotState) : (ℚ × ℚ × ℚ) × PlotState :=
  (st.palette.getD (st.palette_cursor % st.palette.length) (0, 0, 0),
   { st with palette_cursor := st.palette_cursor + 1 })

/-- numpy slice assignment `l[a:a+len] = repeat(c, len)` on the flat
color buffer. -/
def setRange (l : List (ℚ × ℚ × ℚ)) (a len : ℕ) (c : ℚ × ℚ × ℚ) :
    List (ℚ × ℚ × ℚ) :=
  l.mapIdx fun k v => if a ≤ k ∧ k < a + len then c else v

/-- The color-buffer slice `self.colors[n*S:(n+1)*S]` of curve `n`. -/
def colorRange (st : PlotState) (n : ℕ) : List (ℚ × ℚ × ℚ) :=
  (st.colors.drop (n * st.S)).take st.S

/-- `_set_curve_color(self, n, new_color)`. -/
def set_curve_color (st : PlotState) (n : ℕ) (c : ℚ × ℚ × ℚ) : PlotState :=
  { st with colors := setRange st.colors (n * st.S) st.S c }

/-- `_restore_nth_curve_color(self, n)`. -/
def restore_nth_curve_color (st : PlotState) (n : ℕ) : PlotState :=
  { st with colors :=
      setRange st.colors (n * st.S) st.S (st.backup_colors.getD n (0, 0, 0)) }

/-- `_add_label(self, curve_index, new_color)`: appends a label at the
fixed X offset 170 and Y offset `40 + 16 * len(hl_labels)`
(`LBL_POS_DEFAULTX`, `LBL_POS_DEFAULTY`, `LBL_SPACING`). -/
def add_label (st : PlotState) (ci : ℕ) (c : ℚ × ℚ × ℚ) : PlotState :=
  { st with hl_labels := st.hl_labels ++
      [(ci, { text := st.labels.getD ci "", color := c,
              pos := (170, 40 + 16 * st.hl_labels.length) })] }

/-- `_find_label_from_curve_index(self, curve_index)`: index of the first
label entry whose curve index matches. -/
def find_label_from_curve_index (st : PlotState) (ci : ℕ) : ℕ :=
  st.hl_labels.findIdx fun p => p.1 == ci

/-- `_del_label_from_curve_index(self, curve_index)`: removes that label
and re-positions every later label `i` (global index `idx + i`) to the
row `idx + i`. -/
def del_label_from_curve_index (st : PlotState) (ci : ℕ) : PlotState :=
  let idx := find_label_from_curve_index st ci
  let ls := st.hl_labels.eraseIdx idx
  { st with hl_labels := ls.mapIdx fun k p =>
      if idx ≤ k then (p.1, { p.2 with pos := (170, 40 + 16 * k) }) else p }

/-- `single_select(self, curve_index)`: restore the colors of all
previously selected curves, delete all labels, draw the next palette
color, add one label, make the clicked curve the sole selection and set
its color. -/
def single_select (st : PlotState) (ci : ℕ) : PlotState :=
  let st1 := st.selected_lines.foldl restore_nth_curve_color st
  let st2 := { st1 with hl_labels := [] }
  let cs := next_color st2
  let st3 := add_label cs.2 ci cs.1
  let st4 := { st3 with selected_lines := [ci] }
  set_curve_color st4 ci cs.1

/-- `multiple_select(self, curve_index)`: toggle — if the curve is
already selected, delete its label, restore its backup color and remove
it from the selection; otherwise draw the next palette color, append a
label, append the curve to the selection and set its color. -/
def multiple_select (st : PlotState) (ci : ℕ) : PlotState :=
  if ci ∈ st.selected_lines then
    let st1 := del_label_from_curve_index st ci
    let st2 := restore_nth_curve_color st1 ci
    { st2 with selected_lines := st2.selected_lines.erase ci }
  else
    let cs := next_color st
    let st2 := add_label cs.2 ci cs.1
    let st3 := { st2 with selected_lines := st2.selected_lines ++ [ci] }
    set_curve_color st3 ci cs.1

/-- `on_mouse_release(self, event)`: ignored while Shift is held; ignored
when the release position is 3 or more pixels from the press position in
either axis; otherwise maps the position through the scene transform
`tr`, finds the closest line and dispatches to `multiple_select` (Ctrl
held) or `single_select`. -/
def on_mouse_release (st : PlotState) (tr : ℚ × ℚ → ℚ × ℚ) (pos : ℚ × ℚ) :
    PlotState :=
  if st.shift_pressed then st
  else if ¬(|pos.1 - st.init_x| < 3 ∧ |pos.2 - st.init_y| < 3) then st
  else
    let xy := tr pos
    let cl := find_closest_line st.pos_ xy.1 xy.2
    if st.ctrl_pressed then multiple_select st cl else single_select st cl

/-- A selection operation: the two mouse-release outcomes that mutate the
selection state. -/
inductive SelOp
  | single (c : ℕ)
  | multi (c : ℕ)

/-- Apply one selection operation. -/
def applyOp (st : PlotState) : SelOp → PlotState
  | .single c => single_select st c
  | .multi c => multiple_select st c

/-- Apply a sequence of selection operations, left to right. -/
def applyOps (st : PlotState) (ops : List SelOp) : PlotState :=
  ops.foldl applyOp st

/-- Invariant: the label list and the selection list have the same curve
indices in the same order. -/
def labelsMatch (st : PlotState) : Prop :=
  st.hl_labels.map Prod.fst = st.selected_lines

/-- Invariant: the `i`-th label sits at the fixed X offset and the
contiguous row `i` (`y = 40 + 16 * i`). -/
def labelsStacked (st : PlotState) : Prop :=
  ∀ i, (h : i < st.hl_labels.length) →
    (st.hl_labels.get ⟨i, h⟩).2.pos = (170, 40 + 16 * i)

/-- The palette color at cyclic position `k`
(`itertools.cycle` = index modulo the palette length). -/
def paletteAt (st : PlotState) (k : ℕ) : ℚ × ℚ × ℚ :=
  st.palette.getD (k % st.palette.length) (0, 0, 0)

/-- The color the next `next(self.hl_colorset)` call will return. -/
def paletteNext (st : PlotState) : ℚ × ℚ × ℚ :=
  paletteAt st st.palette_cursor

instance (st : PlotState) : Decidable (labelsMatch st) := by
  unfold labelsMatch
  infer_instance

instance (st : PlotState) : Decidable (labelsStacked st) := by
  unfold labelsStacked
  exact Nat.decidableBallLT _ _

/-- A small concrete plot state (2 curves of 1 sample each) used to
instantiate the hypotheses of the general theorems. -/
def witState : PlotState where
  N := 2
  S := 1
  labels := ["a", "b"]
  pos_ := [[(0, 0)], [(0, 9/10)]]
  colors := [(1, 0, 0), (0, 1, 0)]
  backup_colors := [(1, 1, 1), (1, 1, 2)]
  selected_lines := []
  hl_labels := []
  palette := [(5, 0, 0), (0, 5, 0)]
  palette_cursor := 0
  ctrl_pressed := false
  shift_pressed := false
  init_x := 0
  init_y := 0

/-- A row of 20 points `(j, 0)`, as `__init__` builds `line.pos` rows
from a curve of 20 zero samples. -/
def row20 : List (ℚ × ℚ) := (List.range 20).map fun j : ℕ => ((j : ℚ), 0)

/-- `witState` with curve 1 selected. -/
def witSel1 : PlotState := { witState with selected_lines := [1] }

/-- `witState` with curve 0 selected. -/
def witSel0 : PlotState := { witState with selected_lines := [0] }

/-- `witState` with Shift held. -/
def witShift : PlotState := { witState with shift_pressed := true }

/-! ## Lemmas about the selection loop of `find_closest_line` -/

lemma selLoop_nil (acc : ℚ × ℕ) : selLoop [] acc = acc := rfl

lemma selLoop_cons (q : ℕ × ℚ) (t : List (ℕ × ℚ)) (acc : ℚ × ℕ) :
    selLoop (q :: t) acc = selLoop t (if q.2 < acc.1 then (q.2, q.1) else acc) :=
  rfl

/-- If no scanned distance beats the accumulator, the loop never updates. -/
lemma selLoop_const (l : List (ℕ × ℚ)) (r : ℚ) (i : ℕ)
    (h : ∀ q ∈ l, r ≤ q.2) : selLoop l (r, i) = (r, i) := by
  induction l with
  | nil => rfl
  | cons q t ih =>
    rw [selLoop_cons, if_neg (not_lt.mpr (h q (List.mem_cons_self q t)))]
    exact ih fun p hp => h p (List.mem_cons_of_mem _ hp)

/-- Specification of the selection loop: when some scanned distance is
below the initial threshold, the loop returns the index of the first
element achieving the minimal distance. -/
lemma selLoop_spec (l : List (ℕ × ℚ)) : ∀ (r : ℚ) (i : ℕ),
    (∃ p ∈ l, p.2 < r) →
    ∃ d, d < r ∧ (∀ q ∈ l, d ≤ q.2) ∧
      l.find? (fun q => decide (q.2 ≤ d)) = some ((selLoop l (r, i)).2, d) := by
  induction l with
  | nil => intro r i h; simp at h
  | cons p t ih =>
    intro r i h
    by_cases hp : p.2 < r
    · by_cases ht : ∃ q ∈ t, q.2 < p.2
      · obtain ⟨d, hd1, hd2, hd3⟩ := ih p.2 p.1 ht
        refine ⟨d, hd1.trans hp, ?_, ?_⟩
        · intro q hq
          rcases List.mem_cons.mp hq with h1 | h1
          · rw [h1]; exact le_of_lt hd1
          · exact hd2 q h1
        · rw [selLoop_cons, if_pos hp, List.find?_cons_of_neg, hd3]
          simp only [decide_eq_true_eq, not_le]
          exact hd1
      · push_neg at ht
        refine ⟨p.2, hp, ?_, ?_⟩
        · intro q hq
          rcases List.mem_cons.mp hq with h1 | h1
          · rw [h1]
          · exact ht q h1
        · rw [selLoop_cons, if_pos hp, selLoop_const t p.2 p.1 ht,
            List.find?_cons_of_pos]
          simp
    · have ht : ∃ q ∈ t, q.2 < r := by
        obtain ⟨q, hq, hqr⟩ := h
        rcases List.mem_cons.mp hq with h1 | h1
        · exact absurd (h1 ▸ hqr) hp
        · exact ⟨q, h1, hqr⟩
      obtain ⟨d, hd1, hd2, hd3⟩ := ih r i ht
      refine ⟨d, hd1, ?_, ?_⟩
      · intro q hq
        rcases List.mem_cons.mp hq with h1 | h1
        · rw [h1]; exact le_trans (le_of_lt hd1) (not_lt.mp hp)
        · exact hd2 q h1
      · rw [selLoop_cons, if_neg hp, List.find?_cons_of_neg, hd3]
        simp only [decide_eq_true_eq, not_le]
        exact lt_of_lt_of_le hd1 (not_lt.mp hp)

/-- The nested loop of `find_closest_line` equals the flat selection loop
over the flattened scanned points. -/
lemma find_closest_line_eq_selLoop (pos_ : List (List (ℚ × ℚ))) (x y : ℚ) :
    find_closest_line pos_ x y =
      (selLoop (scanPts pos_ x y) ((100 : ℚ) ^ 2, 0)).2 := by
  simp only [find_closest_line, scanPts, selLoop, List.foldl_flatten,
    List.foldl_map]

/-! ## Lemmas about Python slicing (`tab = pos[:, rx-10:rx+10]`) -/

lemma pyBound_le (a : ℤ) (S : ℕ) : pyBound a S ≤ S := by
  unfold pyBound
  split <;> omega

/-- A take-then-drop slice of a list enumerated as an explicit index
range. -/
lemma take_drop_slice (l : List α) (d : α) (lo hi : ℕ) (h : hi ≤ l.length) :
    (l.take hi).drop lo = (List.range' lo (hi - lo)).map fun j => l.getD j d := by
  apply List.ext_getElem
  · simp only [List.length_drop, List.length_take, List.length_map,
      List.length_range']
    omega
  · intro n h1 h2
    have hlen : n < hi - lo := by
      simpa using h2
    rw [List.getElem_drop, List.getElem_take, List.getElem_map,
      List.getElem_range', List.getD_eq_getElem l d (by omega)]
    congr 1
    omega

/-! ## Lemmas about `np.roll` -/

lemma length_np_roll (l : List ℚ) (d : ℤ) : (np_roll l d).length = l.length := by
  simp [np_roll]

lemma getElem_np_roll (l : List ℚ) (d : ℤ) (i : ℕ)
    (h : i < (np_roll l d).length) :
    (np_roll l d)[i] = l.getD ((((i : ℤ) - d) % (l.length : ℤ)).toNat) 0 := by
  simp [np_roll]

/-- Rotating twice composes the offsets. -/
lemma np_roll_np_roll (l : List ℚ) (d1 d2 : ℤ) :
    np_roll (np_roll l d1) d2 = np_roll l (d1 + d2) := by
  rcases Nat.eq_zero_or_pos l.length with h0 | h0
  · rw [List.length_eq_zero] at h0
    subst h0
    rfl
  apply List.ext_getElem
  · simp [length_np_roll]
  · intro n h1 h2
    have hlen : (0 : ℤ) < (l.length : ℤ) := by exact_mod_cast h0
    rw [getElem_np_roll, getElem_np_roll]
    rw [length_np_roll]
    set a : ℤ := ((n : ℤ) - d2) % (l.length : ℤ) with ha
    have ha0 : 0 ≤ a := Int.emod_nonneg _ (by omega)
    have ha1 : a < (l.length : ℤ) := Int.emod_lt_of_pos _ hlen
    have hb : a.toNat < (np_roll l d1).length := by
      rw [length_np_roll]; omega
    rw [List.getD_eq_getElem (np_roll l d1) 0 hb, getElem_np_roll]
    have hcast : ((a.toNat : ℤ)) = a := Int.toNat_of_nonneg ha0
    congr 2
    rw [hcast, ha]
    have hmod : (((n : ℤ) - d2) % (l.length : ℤ) - d1) % (l.length : ℤ) =
        (((n : ℤ) - d2) - d1) % (l.length : ℤ) :=
      Int.ModEq.sub_right d1 (Int.emod_emod_of_dvd _ dvd_rfl)
    rw [hmod]
    congr 1
    ring

/-- Rotating by zero is the identity. -/
lemma np_roll_zero (l : List ℚ) : np_roll l 0 = l := by
  apply List.ext_getElem
  · simp [length_np_roll]
  · intro n h1 h2
    rw [getElem_np_roll]
    have hn : n < l.length := by simpa [length_np_roll] using h1
    have hmod : ((n : ℤ) - 0) % (l.length : ℤ) = (n : ℤ) := by
      rw [sub_zero]
      exact Int.emod_eq_of_lt (by omega) (by exact_mod_cast hn)
    rw [hmod]
    have : ((n : ℤ)).toNat = n := rfl
    rw [this, List.getD_eq_getElem l 0 hn]

/-- Rotating by an offset only matters modulo the length. -/
lemma np_roll_emod (l : List ℚ) (d : ℤ) :
    np_roll l (d % (l.length : ℤ)) = np_roll l d := by
  apply List.ext_getElem
  · simp [length_np_roll]
  · intro n h1 h2
    rw [getElem_np_roll, getElem_np_roll]
    congr 2
    exact Int.ModEq.sub (Int.ModEq.refl _) (Int.emod_emod_of_dvd _ dvd_rfl)

/-! ## Lemmas about the flat color buffer -/

lemma length_setRange (l : List (ℚ × ℚ × ℚ)) (a n : ℕ) (c : ℚ × ℚ × ℚ) :
    (setRange l a n c).length = l.length := by
  simp [setRange]

/-- The written range reads back as a constant block. -/
lemma slice_setRange_self (l : List (ℚ × ℚ × ℚ)) (a n : ℕ) (c : ℚ × ℚ × ℚ)
    (h : a + n ≤ l.length) :
    ((setRange l a n c).drop a).take n = List.replicate n c := by
  apply List.ext_getElem
  · simp only [List.length_take, List.length_drop, length_setRange,
      List.length_replicate]
    omega
  · intro k h1 h2
    have hk : k < n := by simpa using h2
    rw [List.getElem_take, List.getElem_drop, List.getElem_replicate]
    simp only [setRange, List.getElem_mapIdx]
    rw [if_pos]
    omega

/-- A slice disjoint from the written range is untouched. -/
lemma slice_setRange_other (l : List (ℚ × ℚ × ℚ)) (a n : ℕ) (c : ℚ × ℚ × ℚ)
    (b m : ℕ) (h : b + m ≤ a ∨ a + n ≤ b) :
    ((setRange l a n c).drop b).take m = (l.drop b).take m := by
  apply List.ext_getElem
  · simp [length_setRange]
  · intro k h1 h2
    have hk : k < m ∧ k < (setRange l a n c).length - b := by simpa using h1
    rw [List.getElem_take, List.getElem_drop, List.getElem_take,
      List.getElem_drop]
    simp only [setRange, List.getElem_mapIdx]
    rw [if_neg]
    omega

lemma curve_range_le (n N S : ℕ) (h : n < N) : n * S + S ≤ N * S := by
  calc n * S + S = (n + 1) * S := by ring
    _ ≤ N * S := Nat.mul_le_mul_right S h

lemma curve_range_disjoint (j n S : ℕ) (h : j ≠ n) :
    j * S + S ≤ n * S ∨ n * S + S ≤ j * S := by
  rcases Nat.lt_or_ge j n with h1 | h1
  · exact Or.inl (curve_range_le j n S h1)
  · exact Or.inr (curve_range_le n j S (lt_of_le_of_ne h1 (Ne.symm h)))

lemma restore_eq_set (st : PlotState) (n : ℕ) :
    restore_nth_curve_color st n =
      set_curve_color st n (st.backup_colors.getD n (0, 0, 0)) := rfl

lemma colorRange_set_self (st : PlotState) (n : ℕ) (c : ℚ × ℚ × ℚ)
    (hlen : st.colors.length = st.N * st.S) (hn : n < st.N) :
    colorRange (set_curve_color st n c) n = List.replicate st.S c := by
  unfold colorRange set_curve_color
  exact slice_setRange_self _ _ _ _ (by rw [hlen]; exact curve_range_le n st.N st.S hn)

lemma colorRange_set_other (st : PlotState) (n : ℕ) (c : ℚ × ℚ × ℚ) (j : ℕ)
    (h : j ≠ n) :
    colorRange (set_curve_color st n c) j = colorRange st j := by
  unfold colorRange set_curve_color
  exact slice_setRange_other _ _ _ _ _ _ (curve_range_disjoint j n st.S h)

/-- The restore loop of `single_select` changes only the color buffer
(and preserves its length). -/
lemma restoreFold_fields (L : List ℕ) (st : PlotState) :
    (L.foldl restore_nth_curve_color st).N = st.N ∧
    (L.foldl restore_nth_curve_color st).S = st.S ∧
    (L.foldl restore_nth_curve_color st).labels = st.labels ∧
    (L.foldl restore_nth_curve_color st).pos_ = st.pos_ ∧
    (L.foldl restore_nth_curve_color st).backup_colors = st.backup_colors ∧
    (L.foldl restore_nth_curve_color st).selected_lines = st.selected_lines ∧
    (L.foldl restore_nth_curve_color st).hl_labels = st.hl_labels ∧
    (L.foldl restore_nth_curve_color st).palette = st.palette ∧
    (L.foldl restore_nth_curve_color st).palette_cursor = st.palette_cursor ∧
    (L.foldl restore_nth_curve_color st).colors.length = st.colors.length := by
  induction L generalizing st with
  | nil => simp
  | cons a t ih =>
    simp only [List.foldl_cons]
    have h := ih (restore_nth_curve_color st a)
    simpa [restore_nth_curve_color, length_setRange] using h

/-- Once a curve's color range holds its backup block, further restores
keep it there. -/
lemma restoreFold_keep (L : List ℕ) (st : PlotState) (j : ℕ)
    (hlen : st.colors.length = st.N * st.S) (hj : j < st.N)
    (h : colorRange st j = List.replicate st.S (st.backup_colors.getD j (0, 0, 0))) :
    colorRange (L.foldl restore_nth_curve_color st) j =
      List.replicate st.S (st.backup_colors.getD j (0, 0, 0)) := by
  induction L generalizing st with
  | nil => exact h
  | cons a t ih =>
    simp only [List.foldl_cons]
    have hx : colorRange (restore_nth_curve_color st a) j =
        List.replicate st.S (st.backup_colors.getD j (0, 0, 0)) := by
      by_cases haj : a = j
      · subst haj
        rw [restore_eq_set]
        exact colorRange_set_self st a _ hlen hj
      · rw [restore_eq_set, colorRange_set_other st a _ j fun hh => haj hh.symm]
        exact h
    exact ih (restore_nth_curve_color st a)
      (by simpa [restore_nth_curve_color, length_setRange] using hlen) hj hx

/-- Restoring a list of curves containing `j` leaves `j`'s color range at
its backup block. -/
lemma restoreFold_mem (L : List ℕ) (st : PlotState) (j : ℕ)
    (hlen : st.colors.length = st.N * st.S) (hj : j < st.N) (hmem : j ∈ L) :
    colorRange (L.foldl restore_nth_curve_color st) j =
      List.replicate st.S (st.backup_colors.getD j (0, 0, 0)) := by
  induction L generalizing st with
  | nil => simp at hmem
  | cons a t ih =>
    simp only [List.foldl_cons]
    by_cases haj : a = j
    · subst haj
      exact restoreFold_keep t (restore_nth_curve_color st a) a
        (by simpa [restore_nth_curve_color, length_setRange] using hlen) hj
        (by rw [restore_eq_set]; exact colorRange_set_self st a _ hlen hj)
    · rcases List.mem_cons.mp hmem with h1 | h1
      · exact absurd h1.symm haj
      · exact ih (restore_nth_curve_color st a)
          (by simpa [restore_nth_curve_color, length_setRange] using hlen) hj h1

/-! ## Lemmas about the label list -/

lemma map_fst_mapIdx (l : List (ℕ × TextLabel))
    (f : ℕ → (ℕ × TextLabel) → (ℕ × TextLabel))
    (hf : ∀ k p, (f k p).1 = p.1) :
    (l.mapIdx f).map Prod.fst = l.map Prod.fst := by
  apply List.ext_getElem
  · simp
  · intro n h1 h2
    simp [List.getElem_mapIdx, hf]

lemma map_eraseIdx (l : List α) (f : α → β) (n : ℕ) :
    (l.eraseIdx n).map f = (l.map f).eraseIdx n := by
  induction l generalizing n with
  | nil => simp
  | cons a t ih =>
    cases n with
    | zero => simp
    | succ m => simp [ih]

lemma findIdx_map_fst (l : List (ℕ × TextLabel)) (c : ℕ) :
    (l.findIdx fun p => p.1 == c) = (l.map Prod.fst).findIdx (· == c) := by
  induction l with
  | nil => rfl
  | cons a t ih => simp [List.findIdx_cons, ih]

lemma erase_eq_eraseIdx_findIdx (l : List ℕ) (c : ℕ) :
    l.erase c = l.eraseIdx (l.findIdx (· == c)) := by
  induction l with
  | nil => rfl
  | cons a t ih =>
    by_cases h : a = c
    · subst h
      simp [List.findIdx_cons]
    · have hb : (a == c) = false := by simpa using h
      rw [List.erase_cons_tail (by simpa using h), List.findIdx_cons, hb,
        cond_false, List.eraseIdx_cons_succ, ih]

lemma findIdx_append_singleton (l : List (ℕ × TextLabel)) (x : ℕ × TextLabel)
    (pred : (ℕ × TextLabel) → Bool)
    (hl : ∀ p ∈ l, pred p = false) (hx : pred x = true) :
    (l ++ [x]).findIdx pred = l.length := by
  induction l with
  | nil => simp [List.findIdx_cons, hx]
  | cons a t ih =>
    simp only [List.cons_append, List.findIdx_cons,
      hl a (List.mem_cons_self a t), cond_false, List.length_cons]
    rw [ih fun p hp => hl p (List.mem_cons_of_mem _ hp)]

lemma eraseIdx_append_singleton (l : List α) (x : α) :
    (l ++ [x]).eraseIdx l.length = l := by
  induction l with
  | nil => rfl
  | cons a t ih => simp [ih]

lemma mapIdx_ge_eq_self (l : List α) (n : ℕ) (g : ℕ → α → α)
    (h : l.length ≤ n) :
    (l.mapIdx fun k p => if n ≤ k then g k p else p) = l := by
  apply List.ext_getElem
  · simp
  · intro k h1 h2
    rw [List.getElem_mapIdx, if_neg (by omega)]

/-! ## Structural unfoldings of the selection operations -/

/-- `single_select` written as one record update after the restore loop. -/
lemma single_select_def (st : PlotState) (c : ℕ) :
    single_select st c =
      set_curve_color
        { st.selected_lines.foldl restore_nth_curve_color st with
          hl_labels := [(c,
            { text := (st.selected_lines.foldl restore_nth_curve_color st).labels.getD c "",
              color := paletteNext (st.selected_lines.foldl restore_nth_curve_color st),
              pos := (170, 40) })],
          selected_lines := [c],
          palette_cursor :=
            (st.selected_lines.foldl restore_nth_curve_color st).palette_cursor + 1 }
        c (paletteNext (st.selected_lines.foldl restore_nth_curve_color st)) := rfl

/-- `multiple_select` on an unselected curve: append the new selection. -/
lemma multiple_select_not_mem_def (st : PlotState) (c : ℕ)
    (h : c ∉ st.selected_lines) :
    multiple_select st c =
      set_curve_color
        { st with
          hl_labels := st.hl_labels ++ [(c,
            { text := st.labels.getD c "", color := paletteNext st,
              pos := (170, 40 + 16 * st.hl_labels.length) })],
          selected_lines := st.selected_lines ++ [c],
          palette_cursor := st.palette_cursor + 1 }
        c (paletteNext st) := by
  unfold multiple_select
  rw [if_neg h]
  rfl

/-- `multiple_select` on a selected curve: drop its label, restore its
color, erase it from the selection. -/
lemma multiple_select_mem_def (st : PlotState) (c : ℕ)
    (h : c ∈ st.selected_lines) :
    multiple_select st c =
      { restore_nth_curve_color
          { st with hl_labels :=
              ((st.hl_labels.eraseIdx (st.hl_labels.findIdx fun p => p.1 == c)).mapIdx
                fun k p =>
                  if (st.hl_labels.findIdx fun p => p.1 == c) ≤ k then
                    (p.1, { p.2 with pos := (170, 40 + 16 * k) })
                  else p) } c
        with selected_lines := st.selected_lines.erase c } := by
  unfold multiple_select
  rw [if_pos h]
  rfl

/-! ## Properties of `single_select` -/

lemma replicate_ne (n : ℕ) (h : 0 < n) (a b : α) (hab : a ≠ b) :
    List.replicate n a ≠ List.replicate n b := by
  cases n with
  | zero => omega
  | succ m =>
    intro he
    simp only [List.replicate_succ, List.cons.injEq] at he
    exact hab he.1

/-- The bundle of facts about one `single_select` call. -/
lemma single_select_props (st : PlotState) (c : ℕ)
    (hlen : st.colors.length = st.N * st.S) (hc : c < st.N) :
    (single_select st c).selected_lines = [c] ∧
    (single_select st c).hl_labels =
      [(c, { text := st.labels.getD c "", color := paletteNext st,
             pos := (170, 40) })] ∧
    (single_select st c).palette_cursor = st.palette_cursor + 1 ∧
    (single_select st c).N = st.N ∧
    (single_select st c).S = st.S ∧
    (single_select st c).palette = st.palette ∧
    (single_select st c).backup_colors = st.backup_colors ∧
    (single_select st c).labels = st.labels ∧
    (single_select st c).colors.length = st.colors.length ∧
    colorRange (single_select st c) c = List.replicate st.S (paletteNext st) := by
  obtain ⟨hN, hS, hlab, hpos, hbk, hsl, hhl, hpal, hcur, hclen⟩ :=
    restoreFold_fields st.selected_lines st
  have hpn : paletteNext (st.selected_lines.foldl restore_nth_curve_color st) =
      paletteNext st := by
    unfold paletteNext paletteAt
    rw [hpal, hcur]
  have key := single_select_def st c
  rw [hlab, hpn, hcur] at key
  have hXlen : (st.selected_lines.foldl restore_nth_curve_color st).colors.length =
      (st.selected_lines.foldl restore_nth_curve_color st).N *
        (st.selected_lines.foldl restore_nth_curve_color st).S := by
    rw [hclen, hN, hS]
    exact hlen
  have hXc : c < (st.selected_lines.foldl restore_nth_curve_color st).N := by
    rw [hN]
    exact hc
  refine ⟨by rw [key]; rfl, by rw [key]; rfl, by rw [key]; rfl,
    ?_, ?_, ?_, ?_, ?_, ?_, ?_⟩
  · rw [key]
    exact hN
  · rw [key]
    exact hS
  · rw [key]
    exact hpal
  · rw [key]
    exact hbk
  · rw [key]
    exact hlab
  · rw [key]
    show (setRange (st.selected_lines.foldl restore_nth_curve_color st).colors _ _ _).length = _
    rw [length_setRange]
    exact hclen
  · rw [key, colorRange_set_self _ c _ (by exact hXlen) (by exact hXc)]
    show List.replicate (st.selected_lines.foldl restore_nth_curve_color st).S
        (paletteNext st) = _
    rw [hS]

/-- `single_select` restores the backup colors of the other previously
selected curves. -/
lemma single_select_restores (st : PlotState) (c : ℕ)
    (hlen : st.colors.length = st.N * st.S)
    (hsel : ∀ j ∈ st.selected_lines, j < st.N) :
    ∀ j ∈ st.selected_lines, j ≠ c →
      colorRange (single_select st c) j =
        List.replicate st.S (st.backup_colors.getD j (0, 0, 0)) := by
  intro j hj hjc
  rw [single_select_def, colorRange_set_other _ _ _ j hjc]
  show colorRange (st.selected_lines.foldl restore_nth_curve_color st) j = _
  exact restoreFold_mem st.selected_lines st j hlen (hsel j hj) hj

/-! ## Preservation of the label/selection invariants -/

lemma labelsMatch_single_select (st : PlotState) (c : ℕ) :
    labelsMatch (single_select st c) := by
  unfold labelsMatch
  rw [single_select_def]
  rfl

lemma labelsMatch_multiple_select (st : PlotState) (c : ℕ)
    (h : labelsMatch st) : labelsMatch (multiple_select st c) := by
  unfold labelsMatch at h ⊢
  by_cases hmem : c ∈ st.selected_lines
  · rw [multiple_select_mem_def st c hmem]
    show ((st.hl_labels.eraseIdx
        (st.hl_labels.findIdx fun p => p.1 == c)).mapIdx fun k p =>
          if (st.hl_labels.findIdx fun p => p.1 == c) ≤ k then
            (p.1, { p.2 with pos := (170, 40 + 16 * k) })
          else p).map Prod.fst = st.selected_lines.erase c
    rw [map_fst_mapIdx _ _ (by intro k p; split <;> rfl)]
    rw [map_eraseIdx, h, findIdx_map_fst, h, ← erase_eq_eraseIdx_findIdx]
  · rw [multiple_select_not_mem_def st c hmem]
    show (st.hl_labels ++
        [(c, ({ text := st.labels.getD c "", color := paletteNext st,
                pos := (170, 40 + 16 * st.hl_labels.length) } : TextLabel))]).map
        Prod.fst = st.selected_lines ++ [c]
    rw [List.map_append, h]
    rfl

lemma labelsStacked_single_select (st : PlotState) (c : ℕ) :
    labelsStacked (single_select st c) := by
  have hx : (single_select st c).hl_labels =
      [(c, { text :=
               (st.selected_lines.foldl restore_nth_curve_color st).labels.getD c "",
             color := paletteNext (st.selected_lines.foldl restore_nth_curve_color st),
             pos := (170, 40) })] := rfl
  unfold labelsStacked
  intro i hi
  simp only [List.get_eq_getElem]
  simp only [hx] at hi ⊢
  have h0 : i = 0 := by
    simp only [List.length_cons, List.length_nil] at hi
    omega
  subst h0
  rfl

lemma labelsStacked_multiple_select (st : PlotState) (c : ℕ)
    (h : labelsStacked st) : labelsStacked (multiple_select st c) := by
  by_cases hmem : c ∈ st.selected_lines
  · have hx : (multiple_select st c).hl_labels =
        ((st.hl_labels.eraseIdx (st.hl_labels.findIdx fun p => p.1 == c)).mapIdx
          fun k p =>
            if (st.hl_labels.findIdx fun p => p.1 == c) ≤ k then
              (p.1, { p.2 with pos := (170, 40 + 16 * k) })
            else p) := by
      rw [multiple_select_mem_def st c hmem]
      rfl
    unfold labelsStacked at h ⊢
    intro i hi
    simp only [List.get_eq_getElem] at h ⊢
    simp only [hx] at hi ⊢
    rw [List.getElem_mapIdx]
    by_cases hik : (st.hl_labels.findIdx fun p => p.1 == c) ≤ i
    · rw [if_pos hik]
    · rw [if_neg hik]
      have hi2 : i < (st.hl_labels.eraseIdx
          (st.hl_labels.findIdx fun p => p.1 == c)).length := by
        simpa using hi
      rw [List.getElem_eraseIdx]
      rw [dif_pos (by omega)]
      exact h i (lt_of_lt_of_le hi2 (List.length_eraseIdx_le _ _))
  · have hx : (multiple_select st c).hl_labels =
        st.hl_labels ++
          [(c, { text := st.labels.getD c "", color := paletteNext st,
                 pos := (170, 40 + 16 * st.hl_labels.length) })] := by
      rw [multiple_select_not_mem_def st c hmem]
      rfl
    unfold labelsStacked at h ⊢
    intro i hi
    simp only [List.get_eq_getElem] at h ⊢
    simp only [hx] at hi ⊢
    by_cases hil : i < st.hl_labels.length
    · rw [List.getElem_append_left hil]
      exact h i hil
    · have hlen2 : i < st.hl_labels.length + 1 := by
        simpa using hi
      have hieq : i = st.hl_labels.length := by omega
      subst hieq
      rw [List.getElem_append_right (le_refl _)]
      simp

lemma labelsMatch_applyOps (st : PlotState) (ops : List SelOp)
    (h : labelsMatch st) : labelsMatch (applyOps st ops) := by
  induction ops generalizing st with
  | nil => exact h
  | cons op t ih =>
    simp only [applyOps, List.foldl_cons]
    cases op with
    | single c => exact ih (single_select st c) (labelsMatch_single_select st c)
    | multi c => exact ih (multiple_select st c) (labelsMatch_multiple_select st c h)

lemma labelsStacked_applyOps (st : PlotState) (ops : List SelOp)
    (h : labelsStacked st) : labelsStacked (applyOps st ops) := by
  induction ops generalizing st with
  | nil => exact h
  | cons op t ih =>
    simp only [applyOps, List.foldl_cons]
    cases op with
    | single c => exact ih (single_select st c) (labelsStacked_single_select st c)
    | multi c => exact ih (multiple_select st c) (labelsStacked_multiple_select st c h)

/-! ## The claims -/

attribute [local semireducible] Rat.add Rat.sub Rat.mul Rat.inv

/-- **C1** For every click position (x, y), whenever some scanned window
point lies at distance below the threshold 100 (squared distances
compared), `find_closest_line` returns the curve index of the first
scanned point achieving the minimal distance: the minimum `d` is below
`100²`, no scanned point is closer, and the first scanned point at
distance `≤ d` (i.e. the first with the strictly smallest distance)
carries exactly the returned curve index. A point at distance 100 or
more never updates the loop state and so never determines the result. -/
theorem C1_find_closest_line_min_threshold (pos_ : List (List (ℚ × ℚ)))
    (x y : ℚ) (h : ∃ p ∈ scanPts pos_ x y, p.2 < 100 ^ 2) :
    ∃ d, d < 100 ^ 2 ∧ (∀ q ∈ scanPts pos_ x y, d ≤ q.2) ∧
      (scanPts pos_ x y).find? (fun q => decide (q.2 ≤ d)) =
        some (find_closest_line pos_ x y, d) := by
  rw [find_closest_line_eq_selLoop]
  exact selLoop_spec (scanPts pos_ x y) (100 ^ 2) 0 h

/-- Witness for C1: two one-point curves, the click at (0, 1) is within
the threshold of both and curve 1 is strictly closest. -/
theorem C1_witness :
    (∃ p ∈ scanPts witState.pos_ 0 1, p.2 < 100 ^ 2) ∧
    (∃ d, d < 100 ^ 2 ∧ (∀ q ∈ scanPts witState.pos_ 0 1, d ≤ q.2) ∧
      (scanPts witState.pos_ 0 1).find? (fun q => decide (q.2 ≤ d)) =
        some (find_closest_line witState.pos_ 0 1, d)) :=
  ⟨by decide, C1_find_closest_line_min_threshold witState.pos_ 0 1 (by decide)⟩

/-- **C2** (code bug evidence): for the 1-D single-curve input
`[0,0,0,0,0]` (one curve, five samples), the constructor's assertion
compares `len(labels)` against `shape[0]` of the raw input — the sample
count 5, not the curve count 1 — so providing the one per-curve label
fails the check while providing five labels passes it. -/
theorem C2_label_count_bug :
    numCurves (CurvesInput.one [0, 0, 0, 0, 0]) = 1 ∧
    labelsCheckOk (CurvesInput.one [0, 0, 0, 0, 0]) (some ["a"]) = false ∧
    labelsCheckOk (CurvesInput.one [0, 0, 0, 0, 0])
      (some ["a", "b", "c", "d", "e"]) = true := by
  decide

/-- **C3** (counterexample): at the left edge (`rx = 0`, 20-sample
curve), the slice `pos[:, rx-10:rx+10]` has a negative start, so Python
slice semantics make the scan empty — it is not the set of in-range
points of the ±10-column window around `rx` (which has 11 points
here). -/
theorem C3_counterexample :
    ¬ (tabOf [row20] 0 = [windowScan row20 (pyRound 0)]) := by
  decide

/-- **C3** (amended): the points scanned by `find_closest_line` for each
curve are exactly those whose column index lies in the half-open,
Python-slice-normalized range `[lo, hi)` with `lo, hi` the normalized
bounds of `rx - 10` and `rx + 10`: the right endpoint `rx + 10` is
excluded, and for `rx < 10` with at least 20 columns the negative start
wraps past the end and the scan is empty. -/
theorem C3_amended_scan_window (pos_ : List (List (ℚ × ℚ))) (x : ℚ) :
    tabOf pos_ x = pos_.map fun row =>
      (List.range' (pyBound (pyRound x - 10) row.length)
          (pyBound (pyRound x + 10) row.length -
            pyBound (pyRound x - 10) row.length)).map
        fun j => row.getD j (0, 0) := by
  simp only [tabOf, pySlice]
  refine List.map_congr_left fun row _ => ?_
  exact take_drop_slice row (0, 0) _ _ (pyBound_le _ _)

/-- **C8** The drag's cyclic rotation of a curve's Y-values is a group
action of ℤ: rotating by `d` then by `-d` restores the vector, and
rotating by `d1` then `d2` equals one rotation by `(d1 + d2) mod S`. -/
theorem C8_drag_roll_group_action (ys : List ℚ) (d d1 d2 : ℤ) :
    np_roll (np_roll ys d) (-d) = ys ∧
    np_roll (np_roll ys d1) d2 = np_roll ys ((d1 + d2) % (ys.length : ℤ)) := by
  constructor
  · rw [np_roll_np_roll, add_neg_cancel, np_roll_zero]
  · rw [np_roll_np_roll, np_roll_emod]

/-- **C9** A mouse release while Shift is held, or a release 3 or more
pixels away from the press position in either axis without Shift,
changes nothing: the entire plot state (selection, labels, colors,
palette cursor included) is returned unchanged. -/
theorem C9_release_ignored (st : PlotState) (tr : ℚ × ℚ → ℚ × ℚ)
    (pos : ℚ × ℚ)
    (h : st.shift_pressed = true ∨
      (st.shift_pressed = false ∧
        (3 ≤ |pos.1 - st.init_x| ∨ 3 ≤ |pos.2 - st.init_y|))) :
    on_mouse_release st tr pos = st := by
  rcases h with h | ⟨h1, h2⟩
  · simp [on_mouse_release, h]
  · have hng : ¬(|pos.1 - st.init_x| < 3 ∧ |pos.2 - st.init_y| < 3) := by
      rcases h2 with h2 | h2
      · exact fun hc => absurd hc.1 (not_lt.mpr h2)
      · exact fun hc => absurd hc.2 (not_lt.mpr h2)
    simp [on_mouse_release, h1, hng]

/-- **C4** `single_select c` restores the backup color of every
previously selected curve other than `c`, deletes all labels, leaves the
selection equal to exactly `[c]` with exactly one label entry for `c`
(at the base position, in the next palette color), and sets curve `c`'s
color-buffer range to the next palette color. -/
theorem C4_single_select_spec (st : PlotState) (c : ℕ)
    (hlen : st.colors.length = st.N * st.S) (hc : c < st.N)
    (hsel : ∀ j ∈ st.selected_lines, j < st.N) :
    (single_select st c).selected_lines = [c] ∧
    (single_select st c).hl_labels =
      [(c, { text := st.labels.getD c "", color := paletteNext st,
             pos := (170, 40) })] ∧
    colorRange (single_select st c) c = List.replicate st.S (paletteNext st) ∧
    ∀ j ∈ st.selected_lines, j ≠ c →
      colorRange (single_select st c) j =
        List.replicate st.S (st.backup_colors.getD j (0, 0, 0)) := by
  obtain ⟨h1, h2, _, _, _, _, _, _, _, h10⟩ := single_select_props st c hlen hc
  exact ⟨h1, h2, h10, single_select_restores st c hlen hsel⟩

/-- Witness for C4: single-selecting curve 0 while curve 1 is selected. -/
theorem C4_witness :
    (witSel1.colors.length = witSel1.N * witSel1.S ∧ 0 < witSel1.N ∧
      ∀ j ∈ witSel1.selected_lines, j < witSel1.N) ∧
    ((single_select witSel1 0).selected_lines = [0] ∧
      (single_select witSel1 0).hl_labels =
        [(0, { text := witSel1.labels.getD 0 "", color := paletteNext witSel1,
               pos := (170, 40) })] ∧
      colorRange (single_select witSel1 0) 0 =
        List.replicate witSel1.S (paletteNext witSel1) ∧
      ∀ j ∈ witSel1.selected_lines, j ≠ 0 →
        colorRange (single_select witSel1 0) j =
          List.replicate witSel1.S (witSel1.backup_colors.getD j (0, 0, 0))) :=
  ⟨⟨by decide, by decide, by decide⟩,
    C4_single_select_spec witSel1 0 (by decide) (by decide) (by decide)⟩

/-- **C5** From a state where `c` is not selected (and labels track the
selection), toggling `c` twice with `multiple_select` returns the
selection and the label list to their pre-toggle values, and curve `c`'s
color-buffer range ends at exactly its backup color block. -/
theorem C5_multiple_select_toggle (st : PlotState) (c : ℕ)
    (hlen : st.colors.length = st.N * st.S) (hc : c < st.N)
    (hmatch : labelsMatch st) (hnot : c ∉ st.selected_lines) :
    (multiple_select (multiple_select st c) c).selected_lines =
      st.selected_lines ∧
    (multiple_select (multiple_select st c) c).hl_labels = st.hl_labels ∧
    colorRange (multiple_select (multiple_select st c) c) c =
      List.replicate st.S (st.backup_colors.getD c (0, 0, 0)) := by
  have key1 := multiple_select_not_mem_def st c hnot
  have hsel1 : (multiple_select st c).selected_lines =
      st.selected_lines ++ [c] := by
    rw [key1]
    rfl
  have hlbl1 : (multiple_select st c).hl_labels =
      st.hl_labels ++
        [(c, { text := st.labels.getD c "", color := paletteNext st,
               pos := (170, 40 + 16 * st.hl_labels.length) })] := by
    rw [key1]
    rfl
  have hN2 : (multiple_select st c).N = st.N := by
    rw [key1]
    rfl
  have hS2 : (multiple_select st c).S = st.S := by
    rw [key1]
    rfl
  have hbk2 : (multiple_select st c).backup_colors = st.backup_colors := by
    rw [key1]
    rfl
  have hclen : (multiple_select st c).colors.length = st.colors.length := by
    rw [key1]
    show (setRange _ _ _ _).length = _
    rw [length_setRange]
  have hmem1 : c ∈ (multiple_select st c).selected_lines := by
    rw [hsel1]
    simp
  have key2 := multiple_select_mem_def (multiple_select st c) c hmem1
  have hm := hmatch
  unfold labelsMatch at hm
  have hpred : ∀ p ∈ st.hl_labels, (p.1 == c) = false := by
    intro p hp
    have hmem' : p.1 ∈ st.selected_lines := by
      rw [← hm]
      exact List.mem_map_of_mem Prod.fst hp
    simp only [beq_eq_false_iff_ne, ne_eq]
    intro he
    exact hnot (he ▸ hmem')
  have hidx : ((multiple_select st c).hl_labels.findIdx fun p => p.1 == c) =
      st.hl_labels.length := by
    rw [hlbl1]
    exact findIdx_append_singleton _ _ _ hpred (by simp)
  rw [hidx, hlbl1, hsel1] at key2
  rw [eraseIdx_append_singleton] at key2
  rw [mapIdx_ge_eq_self st.hl_labels st.hl_labels.length
    (fun k p => (p.1, { p.2 with pos := (170, 40 + 16 * k) })) (le_refl _)] at key2
  have herase : (st.selected_lines ++ [c]).erase c = st.selected_lines := by
    rw [List.erase_append_right _ hnot]
    simp
  rw [herase] at key2
  refine ⟨by rw [key2], by rw [key2]; rfl, ?_⟩
  rw [key2]
  have hYlen : ({ multiple_select st c with hl_labels := st.hl_labels } :
      PlotState).colors.length =
      ({ multiple_select st c with hl_labels := st.hl_labels } : PlotState).N *
        ({ multiple_select st c with hl_labels := st.hl_labels } : PlotState).S := by
    show (multiple_select st c).colors.length =
      (multiple_select st c).N * (multiple_select st c).S
    rw [hclen, hN2, hS2]
    exact hlen
  have hYc : c < ({ multiple_select st c with hl_labels := st.hl_labels } :
      PlotState).N := by
    show c < (multiple_select st c).N
    rw [hN2]
    exact hc
  show colorRange (restore_nth_curve_color
      ({ multiple_select st c with hl_labels := st.hl_labels }) c) c = _
  rw [restore_eq_set, colorRange_set_self _ c _ hYlen hYc]
  show List.replicate (multiple_select st c).S
      ((multiple_select st c).backup_colors.getD c (0, 0, 0)) = _
  rw [hS2, hbk2]

/-- Witness for C5: toggling curve 0 twice from the empty selection. -/
theorem C5_witness :
    (witState.colors.length = witState.N * witState.S ∧ 0 < witState.N ∧
      labelsMatch witState ∧ 0 ∉ witState.selected_lines) ∧
    ((multiple_select (multiple_select witState 0) 0).selected_lines =
        witState.selected_lines ∧
      (multiple_select (multiple_select witState 0) 0).hl_labels =
        witState.hl_labels ∧
      colorRange (multiple_select (multiple_select witState 0) 0) 0 =
        List.replicate witState.S (witState.backup_colors.getD 0 (0, 0, 0))) :=
  ⟨⟨by decide, by decide, by decide, by decide⟩,
    C5_multiple_select_toggle witState 0 (by decide) (by decide) (by decide)
      (by decide)⟩

/-- **C6** After any sequence of `single_select` / `multiple_select`
operations from the constructed (empty-selection, empty-label) state,
the label list and the selection list carry the same curve indices in
the same order (in particular they have the same length). -/
theorem C6_labels_track_selection (st0 : PlotState) (ops : List SelOp)
    (h0 : st0.hl_labels = [] ∧ st0.selected_lines = []) :
    (applyOps st0 ops).hl_labels.map Prod.fst =
      (applyOps st0 ops).selected_lines ∧
    (applyOps st0 ops).hl_labels.length =
      (applyOps st0 ops).selected_lines.length := by
  have h : labelsMatch st0 := by
    unfold labelsMatch
    rw [h0.1, h0.2]
    rfl
  have h2 := labelsMatch_applyOps st0 ops h
  unfold labelsMatch at h2
  exact ⟨h2, by rw [← h2, List.length_map]⟩

/-- Witness for C6: a select, a multi-select, a toggle-off and another
select from the constructed state. -/
theorem C6_witness :
    (witState.hl_labels = [] ∧ witState.selected_lines = []) ∧
    ((applyOps witState
        [SelOp.single 0, SelOp.multi 1, SelOp.multi 1,
          SelOp.single 1]).hl_labels.map Prod.fst =
      (applyOps witState
        [SelOp.single 0, SelOp.multi 1, SelOp.multi 1,
          SelOp.single 1]).selected_lines ∧
    (applyOps witState
        [SelOp.single 0, SelOp.multi 1, SelOp.multi 1,
          SelOp.single 1]).hl_labels.length =
      (applyOps witState
        [SelOp.single 0, SelOp.multi 1, SelOp.multi 1,
          SelOp.single 1]).selected_lines.length) :=
  ⟨⟨rfl, rfl⟩,
    C6_labels_track_selection witState
      [SelOp.single 0, SelOp.multi 1, SelOp.multi 1, SelOp.single 1]
      ⟨rfl, rfl⟩⟩

/-- **C7** After any sequence of select/deselect operations from a state
whose labels are stacked, the labels occupy the contiguous, gap-free
vertical rows `0 .. len-1`: the `i`-th label sits at
`y = 40 + 16 * i` from the fixed base offset (deleting a label
re-positions every later label to close the gap). -/
theorem C7_labels_gap_free (st0 : PlotState) (ops : List SelOp)
    (h0 : labelsStacked st0) : labelsStacked (applyOps st0 ops) :=
  labelsStacked_applyOps st0 ops h0

/-- Witness for C7: select two curves, remove the first, from the
constructed state. -/
theorem C7_witness :
    labelsStacked witState ∧
    labelsStacked (applyOps witState
      [SelOp.multi 0, SelOp.multi 1, SelOp.multi 0]) :=
  ⟨by decide,
    C7_labels_gap_free witState [SelOp.multi 0, SelOp.multi 1, SelOp.multi 0]
      (by decide)⟩

/-- **C10** Even when the clicked curve is already the sole selection,
`single_select` consumes the next palette color: the cursor advances by
one, curve `c`'s color range becomes the palette color at the old
cursor, and re-clicking yields a different color block whenever the two
consecutive palette colors differ. -/
theorem C10_single_select_advances_palette (st : PlotState) (c : ℕ)
    (hlen : st.colors.length = st.N * st.S) (hc : c < st.N) (hS : 0 < st.S)
    (_hsel : st.selected_lines = [c]) :
    (single_select st c).palette_cursor = st.palette_cursor + 1 ∧
    colorRange (single_select st c) c =
      List.replicate st.S (paletteAt st st.palette_cursor) ∧
    (paletteAt st st.palette_cursor ≠ paletteAt st (st.palette_cursor + 1) →
      colorRange (single_select (single_select st c) c) c ≠
        colorRange (single_select st c) c) := by
  obtain ⟨p1, p2, p3, p4, p5, p6, p7, p8, p9, p10⟩ :=
    single_select_props st c hlen hc
  refine ⟨p3, p10, ?_⟩
  intro hne
  have hlen2 : (single_select st c).colors.length =
      (single_select st c).N * (single_select st c).S := by
    rw [p9, p4, p5]
    exact hlen
  have hc2 : c < (single_select st c).N := by
    rw [p4]
    exact hc
  obtain ⟨q1, q2, q3, q4, q5, q6, q7, q8, q9, q10⟩ :=
    single_select_props (single_select st c) c hlen2 hc2
  have hpn2 : paletteNext (single_select st c) =
      paletteAt st (st.palette_cursor + 1) := by
    unfold paletteNext paletteAt
    rw [p6, p3]
  rw [q10, hpn2, p10, p5]
  exact replicate_ne st.S hS _ _ (Ne.symm hne)

/-- Witness for C10: re-selecting the already-selected curve 0. -/
theorem C10_witness :
    (witSel0.colors.length = witSel0.N * witSel0.S ∧ 0 < witSel0.N ∧
      0 < witSel0.S ∧ witSel0.selected_lines = [0]) ∧
    ((single_select witSel0 0).palette_cursor = witSel0.palette_cursor + 1 ∧
      colorRange (single_select witSel0 0) 0 =
        List.replicate witSel0.S (paletteAt witSel0 witSel0.palette_cursor) ∧
      (paletteAt witSel0 witSel0.palette_cursor ≠
          paletteAt witSel0 (witSel0.palette_cursor + 1) →
        colorRange (single_select (single_select witSel0 0) 0) 0 ≠
          colorRange (single_select witSel0 0) 0)) :=
  ⟨⟨by decide, by decide, by decide, by decide⟩,
    C10_single_select_advances_palette witSel0 0 (by decide) (by decide)
      (by decide) (by decide)⟩

/-- Witness for C9: a release with Shift held leaves the state as is. -/
theorem C9_witness :
    (witShift.shift_pressed = true ∨
      (witShift.shift_pressed = false ∧
        (3 ≤ |((0 : ℚ), (0 : ℚ)).1 - witShift.init_x| ∨
          3 ≤ |((0 : ℚ), (0 : ℚ)).2 - witShift.init_y|))) ∧
    on_mouse_release witShift (fun p => p) ((0 : ℚ), (0 : ℚ)) = witShift :=
  ⟨Or.inl (by decide),
    C9_release_ignored witShift (fun p => p) ((0 : ℚ), (0 : ℚ))
      (Or.inl (by decide))⟩

end Visplot
